import Mathlib

/-!
Verification of the `pieper` deferred-pipeline library.

The repository contains two near-duplicate implementations of the `Pieper`
class:
* an *eager* variant, whose constructor stores an already-started
  `Promise<T>` (field `value`), so every chained step begins executing as
  soon as it is attached;
* a *lazy* variant, whose constructor stores a thunk
  `() => Promise<T>` (field `thunk`), so nothing runs until a terminal
  operation invokes the thunk.

The spec designates the lazy variant as canonical.  We embed both where the
claims need them.

Modelling decisions (shared by both embeddings):
* JavaScript values carried by a pipeline are modelled by `JSVal`; the error
  channel is untyped in the source (`any`), so errors are `JSVal` too, and a
  JavaScript `Error` object with message `m` is `JSVal.errObj m`.
* A promise, once settled, is `Except JSVal JSVal` (`ok` = fulfilled,
  `error` = rejected).
* Every caller-supplied step function is modelled as a function returning a
  settled outcome, `UFun := JSVal → Except JSVal JSVal` (and similar at
  `Bool`/`Unit`).  Inside a `.then`/`.catch`/`.finally` callback a
  synchronous throw and a returned rejected promise are observationally the
  same — both reject the derived promise — so `Except.error` covers both.
  A possibly asynchronous result is likewise covered, because the promise
  machinery awaits it before continuing.
* The one place where a synchronous throw is *not* equivalent to a
  rejection is the root function handed to the lazy `from`: its thunk is
  `() => Promise.resolve(fn())`, so a synchronous throw from `fn`
  propagates out of the thunk itself (and hence out of `run()`), it never
  becomes a rejected promise.  The type `CallRes` keeps the two apart, and
  `PResult` distinguishes a thunk that throws synchronously
  (`PResult.syncThrow`) from one that returns a promise (`PResult.settles`).
* To reason about *when* caller-supplied functions are invoked, the
  semantics records a `Tag` event at every point where the source invokes
  one.  `EffS α := List Tag × Except JSVal α` is the outcome of a callback
  together with the invocations it performed; `PEff` is the same for a
  thunk, with the synchronous-throw case added.
-/

inductive JSVal where
  | num : Int → JSVal
  | str : String → JSVal
  | boolV : Bool → JSVal
  | errObj : String → JSVal
  | undef : JSVal
deriving DecidableEq

/-- One event per invocation of a caller-supplied function: which formal
parameter of which combinator was called. `root` is the zero-argument
producer handed to `from`. -/
inductive Tag where
  | root | mapF | flatMapF | condF | thenF | elseF | tapF | predF | catchF | finallyF
deriving DecidableEq

/-- Outcome of invoking a caller-supplied callback (inside promise
machinery, so a synchronous throw equals a rejection), together with the
trace of nested invocations it performed. -/
def EffS (α : Type) : Type := List Tag × Except JSVal α

/-- Outcome of calling the zero-argument function handed to `from`: it can
throw synchronously (not mediated by any promise), or produce a value /
promise whose settlement is `r`. -/
inductive CallRes where
  | sync : JSVal → CallRes
  | settled : Except JSVal JSVal → CallRes

deriving instance DecidableEq for Except

/-- Outcome of invoking a pipeline's composed thunk: either the thunk
itself throws synchronously (escaping `run()`), or it returns a promise
with settlement `r`. -/
inductive PResult where
  | syncThrow : JSVal → PResult
  | settles : Except JSVal JSVal → PResult
deriving DecidableEq

/-- Invoking a thunk: the events it performed plus its outcome. -/
def PEff : Type := List Tag × PResult

/-- Caller-supplied step functions (types at which they are used). -/
def UFun : Type := JSVal → Except JSVal JSVal

def UPred : Type := JSVal → Except JSVal Bool

def UVoid : Type := JSVal → Except JSVal Unit

def UFin : Type := Unit → Except JSVal Unit

/-- Invoke a caller-supplied function, recording the event. -/
def call (tag : Tag) (f : JSVal → Except JSVal α) (v : JSVal) : EffS α :=
  ([tag], f v)

/-- Sequencing of callback outcomes (promise `then` at callback level):
a rejection skips the continuation. -/
def bindS (m : EffS α) (f : α → EffS β) : EffS β :=
  match m with
  | (t, Except.error e) => (t, Except.error e)
  | (t, Except.ok v) => (t ++ (f v).1, (f v).2)

/-- `this.thunk().then(cb)`: a synchronous throw from the inner thunk
propagates before `.then` ever attaches; a rejection skips `cb`; on
fulfilment `cb` runs and its outcome settles the derived promise. -/
def thenE (m : PEff) (f : JSVal → EffS JSVal) : PEff :=
  match m with
  | (t, PResult.syncThrow e) => (t, PResult.syncThrow e)
  | (t, PResult.settles (Except.error e)) => (t, PResult.settles (Except.error e))
  | (t, PResult.settles (Except.ok v)) => (t ++ (f v).1, PResult.settles (f v).2)

/-- `this.thunk().catch(fn)`: a synchronous throw still propagates (the
`.catch` never attaches); fulfilment passes through untouched; on rejection
`fn` runs and its outcome settles the derived promise. -/
def catchE (m : PEff) (f : JSVal → EffS JSVal) : PEff :=
  match m with
  | (t, PResult.syncThrow e) => (t, PResult.syncThrow e)
  | (t, PResult.settles (Except.ok v)) => (t, PResult.settles (Except.ok v))
  | (t, PResult.settles (Except.error e)) => (t ++ (f e).1, PResult.settles (f e).2)

/-- `this.thunk().finally(fn)`: a synchronous throw still propagates (`fn`
never runs); otherwise `fn` runs after settlement, its successful return is
discarded and the original settlement kept, while its failure overrides it. -/
def finallyE (m : PEff) (f : UFin) : PEff :=
  match m with
  | (t, PResult.syncThrow e) => (t, PResult.syncThrow e)
  | (t, PResult.settles r) =>
      match f () with
      | Except.ok _ => (t ++ [Tag.finallyF], PResult.settles r)
      | Except.error e2 => (t ++ [Tag.finallyF], PResult.settles (Except.error e2))

/-- The second argument of `assert`: `string | Error`. -/
inductive StrOrErr where
  | msg : String → StrOrErr
  | err : JSVal → StrOrErr

/-- `typeof errorMessageOrError === "string" ? new Error(m) : errorMessageOrError`. -/
def errVal : StrOrErr → JSVal
  | StrOrErr.msg m => JSVal.errObj m
  | StrOrErr.err e => e

/-- The lazy `Pieper` class: it stores only the composed thunk. -/
structure Pieper where
  thunk : Unit → PEff

/-- `of(value)`: `() => Promise.resolve(value)`; `value` may itself be an
already-created promise, hence an arbitrary settlement, and the thunk never
throws synchronously. -/
def Pieper.of (v : Except JSVal JSVal) : Pieper :=
  ⟨fun _ => ([], PResult.settles v)⟩

/-- `from(fn)`: `() => Promise.resolve(fn())`.  `fn` runs when the thunk is
invoked; a synchronous throw from `fn` escapes the thunk, any returned
value or promise is flattened by `Promise.resolve`. -/
def Pieper.fromFn (f : Unit → CallRes) : Pieper :=
  ⟨fun _ => ([Tag.root],
      match f () with
      | CallRes.sync e => PResult.syncThrow e
      | CallRes.settled r => PResult.settles r)⟩

/-- `map(fn)`: `() => this.thunk().then(fn)`. -/
def Pieper.map (p : Pieper) (f : UFun) : Pieper :=
  ⟨fun _ => thenE (p.thunk ()) (fun v => call Tag.mapF f v)⟩

/-- `flatMap(fn)`: `() => this.thunk().then((value) => fn(value).run())`.
`fn(value).run()` executes inside a `.then` callback, so a synchronous
throw from the inner pipeline's thunk is converted into a rejection there. -/
def Pieper.flatMap (p : Pieper) (f : JSVal → Except JSVal Pieper) : Pieper :=
  ⟨fun _ => thenE (p.thunk ()) (fun v =>
      bindS (([Tag.flatMapF], f v) : EffS Pieper) (fun q =>
        match q.thunk () with
        | (t2, PResult.syncThrow e) => (t2, Except.error e)
        | (t2, PResult.settles r) => (t2, r)))⟩

/-- `ifElse(condition, thenFn, elseFn)`: awaits `condition(value)`, then
runs exactly one branch. -/
def Pieper.ifElse (p : Pieper) (c : UPred) (tf ef : UFun) : Pieper :=
  ⟨fun _ => thenE (p.thunk ()) (fun v =>
      bindS (call Tag.condF c v) (fun b =>
        if b then call Tag.thenF tf v else call Tag.elseF ef v))⟩

/-- `if(condition, thenFn)`: `return this.ifElse(condition, thenFn, (value) => value)`. -/
def Pieper.ifThen (p : Pieper) (c : UPred) (tf : UFun) : Pieper :=
  p.ifElse c tf (fun v => Except.ok v)

/-- `tap(fn)`: awaits `fn(value)` for effect, passes the original value. -/
def Pieper.tap (p : Pieper) (f : UVoid) : Pieper :=
  ⟨fun _ => thenE (p.thunk ()) (fun v =>
      bindS (call Tag.tapF f v) (fun _ => ([], Except.ok v)))⟩

/-- `log(message?)`: `this.tap((value) => console.log(...))`; the console
write never fails. -/
def Pieper.log (p : Pieper) (_m : Option String) : Pieper :=
  p.tap (fun _ => Except.ok ())

/-- `catch(fn)`: `() => this.thunk().catch(fn)`. -/
def Pieper.catchFn (p : Pieper) (f : UFun) : Pieper :=
  ⟨fun _ => catchE (p.thunk ()) (fun e => call Tag.catchF f e)⟩

/-- `finally(fn)`: `() => this.thunk().finally(fn)`. -/
def Pieper.finallyFn (p : Pieper) (f : UFin) : Pieper :=
  ⟨fun _ => finallyE (p.thunk ()) f⟩

/-- lazy `assert`: awaits `predicate(value)`; when false, *throws* the
supplied error (or a new `Error(message)`), otherwise passes the value. -/
def Pieper.assert (p : Pieper) (pr : UPred) (em : StrOrErr) : Pieper :=
  ⟨fun _ => thenE (p.thunk ()) (fun v =>
      bindS (call Tag.predF pr v) (fun ok =>
        if ok then ([], Except.ok v) else ([], Except.error (errVal em))))⟩

/-- `run()`: `return this.thunk()` — a plain (non-async) method, so a
synchronous throw from the thunk escapes `run` itself. -/
def Pieper.run (p : Pieper) : PEff :=
  p.thunk ()

/-- The tagged union returned by `runSafe`. -/
inductive SafeResult where
  | ok : JSVal → SafeResult
  | fail : JSVal → SafeResult
deriving DecidableEq

/-- `runSafe()`: an `async` method whose `try { await this.thunk() }`
catches both a synchronous throw from the thunk and a rejection of the
returned promise; it always returns a `SafeResult`. -/
def Pieper.runSafe (p : Pieper) : List Tag × SafeResult :=
  match p.thunk () with
  | (t, PResult.syncThrow e) => (t, SafeResult.fail e)
  | (t, PResult.settles (Except.ok v)) => (t, SafeResult.ok v)
  | (t, PResult.settles (Except.error e)) => (t, SafeResult.fail e)

/-- Two consecutive invocations of `run()` on the same handle: each call
invokes the stored thunk afresh; the observable event log is the
concatenation of the two executions' logs. -/
def runTwice (p : Pieper) : List Tag × (PResult × PResult) :=
  ((p.thunk ()).1 ++ (p.thunk ()).1, ((p.thunk ()).2, (p.thunk ()).2))

/-!
The eager variant.  Its constructor stores a `Promise<T>` started at
construction time, so by the time a terminal operation is reached the
promise's settlement — and every caller-function invocation — is already
determined by construction alone.  An eager pipeline is therefore modelled
by the construction-time event log paired with the stored promise's
settlement.  (Since the initial promise is built with
`new Promise((resolve) => resolve(fn()))`, whose executor converts even a
synchronous throw of `fn` into a rejection, no synchronous-throw case
arises in this variant.)
-/

def PieperE : Type := List Tag × Except JSVal JSVal

/-- eager `of(value)`: `new Pieper(Promise.resolve(value))`. -/
def PieperE.ofE (v : Except JSVal JSVal) : PieperE :=
  ([], v)

/-- eager `from(fn)`: `new Promise((resolve) => { resolve(fn()); })`, run
at construction; the executor turns a synchronous throw into a rejection. -/
def PieperE.fromE (f : Unit → CallRes) : PieperE :=
  ([Tag.root],
    match f () with
    | CallRes.sync e => Except.error e
    | CallRes.settled r => r)

/-- eager `map(fn)`: `new Pieper(this.value.then(fn))`. -/
def PieperE.mapE (p : PieperE) (f : UFun) : PieperE :=
  bindS p (fun v => call Tag.mapF f v)

/-- eager `assert`: awaits `predicate(value)`; when false it builds the
error exactly like the lazy variant but then `return error;` — the derived
promise *fulfils* with the `Error` object instead of rejecting. -/
def PieperE.assertE (p : PieperE) (pr : UPred) (em : StrOrErr) : PieperE :=
  bindS p (fun v =>
    bindS (call Tag.predF pr v) (fun ok =>
      if ok then ([], Except.ok v) else ([], Except.ok (errVal em))))

/-- eager `run()`: `return this.value` — the stored, already-running
promise; no step re-executes. -/
def PieperE.runE (p : PieperE) : PieperE :=
  p

/-- eager `runSafe()`: same `try`/`await`/`catch` wrapper as the lazy one. -/
def PieperE.runSafeE (p : PieperE) : List Tag × SafeResult :=
  match p with
  | (t, Except.ok v) => (t, SafeResult.ok v)
  | (t, Except.error e) => (t, SafeResult.fail e)

/-!
A deep embedding of chain descriptions, used for the claims that quantify
over "every pipeline built from constructors and chaining calls": the roots
and chaining calls of the public API, each carrying its caller-supplied
functions.
-/

inductive Root where
  | ofR : Except JSVal JSVal → Root
  | fromR : (Unit → CallRes) → Root

inductive Step where
  | mapS : UFun → Step
  | flatMapS : (JSVal → Except JSVal Pieper) → Step
  | ifS : UPred → UFun → Step
  | ifElseS : UPred → UFun → UFun → Step
  | tapS : UVoid → Step
  | logS : Option String → Step
  | assertS : UPred → StrOrErr → Step
  | catchS : UFun → Step
  | finallyS : UFin → Step

def rootP : Root → Pieper
  | Root.ofR v => Pieper.of v
  | Root.fromR f => Pieper.fromFn f

def applyStep (p : Pieper) : Step → Pieper
  | Step.mapS f => p.map f
  | Step.flatMapS f => p.flatMap f
  | Step.ifS c tf => p.ifThen c tf
  | Step.ifElseS c tf ef => p.ifElse c tf ef
  | Step.tapS f => p.tap f
  | Step.logS m => p.log m
  | Step.assertS pr em => p.assert pr em
  | Step.catchS f => p.catchFn f
  | Step.finallyS f => p.finallyFn f

def chainSteps (p : Pieper) (steps : List Step) : Pieper :=
  steps.foldl applyStep p

def build (r : Root) (steps : List Step) : Pieper :=
  chainSteps (rootP r) steps

/-!
Construction staged in the effect monad.  Each constructor and combinator
body of the lazy variant is of the form `return new Pieper(() => ...)`: it
allocates a closure and performs no caller-function invocation outside the
closure.  `rootM`/`stepM` are those bodies rendered as `EffS` computations,
so that "construction performs no execution" becomes a provable statement
about the emitted event log rather than a typing convention.
-/

def rootM (r : Root) : EffS Pieper :=
  ([], Except.ok (rootP r))

def stepM (p : Pieper) (s : Step) : EffS Pieper :=
  ([], Except.ok (applyStep p s))

def chainM (p : Pieper) : List Step → EffS Pieper
  | [] => ([], Except.ok p)
  | s :: rest => bindS (stepM p s) (fun q => chainM q rest)

def buildM (r : Root) (steps : List Step) : EffS Pieper :=
  bindS (rootM r) (fun p => chainM p steps)

/-- The steps whose caller-supplied functions the short-circuit policy
covers: `map`, `if`, `ifElse`, `tap`, `assert`. -/
def isShortCircuitStep : Step → Bool
  | Step.mapS _ => true
  | Step.ifS _ _ => true
  | Step.ifElseS _ _ _ => true
  | Step.tapS _ => true
  | Step.assertS _ _ => true
  | _ => false

/-! Concrete step functions used to instantiate proved statements. -/

def addOneU : UFun := fun v =>
  match v with
  | JSVal.num n => Except.ok (JSVal.num (n + 1))
  | _ => Except.error JSVal.undef

def alwaysTrueP : UPred := fun _ => Except.ok true

def alwaysFalseP : UPred := fun _ => Except.ok false

def noopV : UVoid := fun _ => Except.ok ()

def demoSteps : List Step :=
  [Step.mapS addOneU, Step.tapS noopV, Step.assertS alwaysTrueP (StrOrErr.msg "x"),
   Step.ifS alwaysTrueP addOneU, Step.ifElseS alwaysTrueP addOneU addOneU]

/-! Helper lemmas shared by the claim theorems. -/

/-- Staged construction of a chain of combinator calls performs no
caller-function invocation and returns the same pipeline as pure
construction. -/
theorem chainM_pure (steps : List Step) :
    ∀ p : Pieper, chainM p steps = ([], Except.ok (chainSteps p steps)) := by
  induction steps with
  | nil => intro p; rfl
  | cons s rest ih =>
      intro p
      simp [chainM, stepM, bindS, ih (applyStep p s), chainSteps, List.foldl]

/-- `then` keeps the inner thunk's event log as a prefix. -/
theorem thenE_trace_prefix (m : PEff) (k : JSVal → EffS JSVal) :
    ∃ t2, (thenE m k).1 = m.1 ++ t2 := by
  obtain ⟨t, r⟩ := m
  cases r with
  | syncThrow e => exact ⟨[], by simp [thenE]⟩
  | settles x =>
      cases x with
      | ok v => exact ⟨(k v).1, by simp [thenE]⟩
      | error e => exact ⟨[], by simp [thenE]⟩

/-- `catch` keeps the inner thunk's event log as a prefix. -/
theorem catchE_trace_prefix (m : PEff) (k : JSVal → EffS JSVal) :
    ∃ t2, (catchE m k).1 = m.1 ++ t2 := by
  obtain ⟨t, r⟩ := m
  cases r with
  | syncThrow e => exact ⟨[], by simp [catchE]⟩
  | settles x =>
      cases x with
      | ok v => exact ⟨[], by simp [catchE]⟩
      | error e => exact ⟨(k e).1, by simp [catchE]⟩

/-- `finally` keeps the inner thunk's event log as a prefix. -/
theorem finallyE_trace_prefix (m : PEff) (f : UFin) :
    ∃ t2, (finallyE m f).1 = m.1 ++ t2 := by
  obtain ⟨t, r⟩ := m
  cases r with
  | syncThrow e => exact ⟨[], by simp [finallyE]⟩
  | settles x =>
      rcases hf : f () with u | e2
      · exact ⟨[Tag.finallyF], by simp [finallyE, hf]⟩
      · exact ⟨[Tag.finallyF], by simp [finallyE, hf]⟩

/-- Every chaining call keeps the receiver's event log as a prefix of the
new pipeline's event log. -/
theorem applyStep_trace_prefix (p : Pieper) (s : Step) :
    ∃ t2, ((applyStep p s).run).1 = ((p.run).1) ++ t2 := by
  cases s with
  | mapS f =>
      simpa [applyStep, Pieper.map, Pieper.run] using
        thenE_trace_prefix (p.thunk ()) (fun v => call Tag.mapF f v)
  | flatMapS f =>
      simpa [applyStep, Pieper.flatMap, Pieper.run] using
        thenE_trace_prefix (p.thunk ()) _
  | ifS c tf =>
      simpa [applyStep, Pieper.ifThen, Pieper.ifElse, Pieper.run] using
        thenE_trace_prefix (p.thunk ()) _
  | ifElseS c tf ef =>
      simpa [applyStep, Pieper.ifElse, Pieper.run] using
        thenE_trace_prefix (p.thunk ()) _
  | tapS f =>
      simpa [applyStep, Pieper.tap, Pieper.run] using
        thenE_trace_prefix (p.thunk ()) _
  | logS m =>
      simpa [applyStep, Pieper.log, Pieper.tap, Pieper.run] using
        thenE_trace_prefix (p.thunk ()) _
  | assertS pr em =>
      simpa [applyStep, Pieper.assert, Pieper.run] using
        thenE_trace_prefix (p.thunk ()) _
  | catchS f =>
      simpa [applyStep, Pieper.catchFn, Pieper.run] using
        catchE_trace_prefix (p.thunk ()) (fun e => call Tag.catchF f e)
  | finallyS f =>
      simpa [applyStep, Pieper.finallyFn, Pieper.run] using
        finallyE_trace_prefix (p.thunk ()) f

/-- An event already in the receiver's execution log stays in the log of
any chain extending it. -/
theorem root_mem_chain (steps : List Step) :
    ∀ p : Pieper, Tag.root ∈ ((p.run).1) →
      Tag.root ∈ (((chainSteps p steps).run).1) := by
  induction steps with
  | nil => intro p h; simpa [chainSteps] using h
  | cons s rest ih =>
      intro p h
      have hpre := applyStep_trace_prefix p s
      rcases hpre with ⟨t2, ht⟩
      have : Tag.root ∈ (((applyStep p s).run).1) := by
        rw [ht]; exact List.mem_append_left _ h
      simpa [chainSteps, List.foldl] using ih (applyStep p s) this

/-- A failed pipeline passes through a `map`/`if`/`ifElse`/`tap`/`assert`
step unchanged: no event, same failure. -/
theorem applyStep_shortCircuit (p : Pieper) (s : Step) (t : List Tag) (e : JSVal)
    (hs : isShortCircuitStep s = true)
    (hp : p.run = (t, PResult.settles (Except.error e))) :
    (applyStep p s).run = (t, PResult.settles (Except.error e)) := by
  have hp' : p.thunk () = (t, PResult.settles (Except.error e)) := hp
  cases s <;> simp [isShortCircuitStep] at hs <;>
    simp [applyStep, Pieper.map, Pieper.ifThen, Pieper.ifElse, Pieper.tap,
      Pieper.assert, Pieper.run, thenE, hp']

/-!
Claim theorems.
-/

/-- Claim C1: the claim says a false `assert` always puts the pipeline in
the failure state and `runSafe` never resolves to `{ok:true}` carrying the
`Error` object.  The eager variant's `assert` builds the error and then
`return error;` instead of throwing it: its `runSafe` resolves to
`{ok:true, value: Error("m")}`.  The lazy variant throws, as the claim
says.  This theorem evaluates both variants at the failing input
`of(1).assert(() => false, "m").runSafe()`. -/
theorem assert_eager_fulfils_with_error :
    PieperE.runSafeE
        (PieperE.assertE (PieperE.ofE (Except.ok (JSVal.num 1))) alwaysFalseP (StrOrErr.msg "m"))
      = ([Tag.predF], SafeResult.ok (JSVal.errObj "m"))
    ∧ ((Pieper.of (Except.ok (JSVal.num 1))).assert alwaysFalseP (StrOrErr.msg "m")).runSafe
      = ([Tag.predF], SafeResult.fail (JSVal.errObj "m")) :=
  ⟨rfl, rfl⟩

/-- Claim C2: the claim says that for a synchronously raising `fn`,
`from(fn)` never throws at construction (true: the lazy constructor only
stores a thunk) and `run()` returns a *failed eventual result* instead of
throwing synchronously.  On the lazy variant this is false: the thunk
`() => Promise.resolve(fn())` propagates `fn`'s synchronous throw, so
`run()` (a plain method returning `this.thunk()`) throws synchronously and
never produces a promise.  First conjunct: the failing input.  Second:
`runSafe` does capture the same throw (its `async` body catches it).
Third: a root failure delivered as a *rejected promise* is, by contrast, a
proper failed eventual result. -/
theorem from_sync_throw_escapes_run :
    (Pieper.fromFn (fun _ => CallRes.sync (JSVal.errObj "boom"))).run
      = ([Tag.root], PResult.syncThrow (JSVal.errObj "boom"))
    ∧ (Pieper.fromFn (fun _ => CallRes.sync (JSVal.errObj "boom"))).runSafe
      = ([Tag.root], SafeResult.fail (JSVal.errObj "boom"))
    ∧ (Pieper.fromFn (fun _ => CallRes.settled (Except.error (JSVal.errObj "boom")))).run
      = ([Tag.root], PResult.settles (Except.error (JSVal.errObj "boom"))) :=
  ⟨rfl, rfl, rfl⟩

/-- Claim C3: the claim's total-recovery law says
`from(() => {throw E}).catch(e => R).run()` resolves to `R` for every `E`
and `R`.  On the lazy variant it does not: the synchronous throw escapes
the composed thunk before the `.catch` is ever attached, so `run()` throws
`E` synchronously and the handler is never invoked (no `Tag.catchF` event).
Second conjunct: when the failure is in the error channel (a rejected
promise), `catch` does invoke the handler and adopts its return as a
success, as the claim describes. -/
theorem catch_misses_sync_throw :
    ((Pieper.fromFn (fun _ => CallRes.sync (JSVal.errObj "boom"))).catchFn
        (fun _ => Except.ok (JSVal.num 0))).run
      = ([Tag.root], PResult.syncThrow (JSVal.errObj "boom"))
    ∧ ((Pieper.fromFn (fun _ => CallRes.settled (Except.error (JSVal.errObj "boom")))).catchFn
        (fun _ => Except.ok (JSVal.num 0))).run
      = ([Tag.root, Tag.catchF], PResult.settles (Except.ok (JSVal.num 0))) :=
  ⟨rfl, rfl⟩

/-- Claim C4: construction and chaining alone perform no execution: for
every root and every sequence of chaining calls, the staged construction
emits no invocation event and returns exactly the described pipeline,
while (second conjunct) the root function handed to `from` *is* invoked,
and hence logged, as soon as `run()` executes the thunk. -/
theorem construction_performs_no_execution (r : Root) (steps : List Step)
    (f : Unit → CallRes) :
    buildM r steps = ([], Except.ok (build r steps))
    ∧ ((Pieper.fromFn f).run).1 = [Tag.root] := by
  constructor
  · simp [buildM, rootM, bindS, chainM_pure steps (rootP r), build]
  · rfl

/-- Claim C5: `runSafe()` never yields a failed eventual result: by
construction its result type has no failure channel, and for every
pipeline it executes the chain once and wraps the outcome — `ok` with the
final value on success, `fail` with the failure payload on a rejection
anywhere in the chain and even on a synchronous throw of the root thunk. -/
theorem runSafe_always_safe (p : Pieper) :
    p.runSafe = (((p.run).1),
      match (p.run).2 with
      | PResult.syncThrow e => SafeResult.fail e
      | PResult.settles (Except.ok v) => SafeResult.ok v
      | PResult.settles (Except.error e) => SafeResult.fail e) := by
  rcases ht : p.thunk () with ⟨t, r⟩
  cases r with
  | syncThrow e => simp [Pieper.runSafe, Pieper.run, ht]
  | settles x => cases x with
    | ok v => simp [Pieper.runSafe, Pieper.run, ht]
    | error e => simp [Pieper.runSafe, Pieper.run, ht]

/-- Claim C6: once a step has failed, every subsequent
`map`/`if`/`ifElse`/`tap`/`assert` step passes the failure through
unchanged and its caller-supplied functions are never invoked: the event
log does not grow and the settled failure is preserved. -/
theorem failure_short_circuits (steps : List Step) (p : Pieper) (t : List Tag)
    (e : JSVal)
    (hall : ∀ s ∈ steps, isShortCircuitStep s = true)
    (hp : p.run = (t, PResult.settles (Except.error e))) :
    (chainSteps p steps).run = (t, PResult.settles (Except.error e)) := by
  induction steps generalizing p with
  | nil => simpa [chainSteps] using hp
  | cons s rest ih =>
      have hs : isShortCircuitStep s = true := hall s (by simp)
      have hrest : ∀ x ∈ rest, isShortCircuitStep x = true :=
        fun x hx => hall x (by simp [hx])
      have h1 := applyStep_shortCircuit p s t e hs hp
      simpa [chainSteps, List.foldl] using ih (applyStep p s) hrest h1

/-- Claim C6 witness: a failed `of` followed by one step of each covered
kind still yields the original failure with an empty event log. -/
theorem failure_short_circuits_witness :
    (chainSteps (Pieper.of (Except.error (JSVal.errObj "boom"))) demoSteps).run
      = ([], PResult.settles (Except.error (JSVal.errObj "boom"))) := by
  apply failure_short_circuits demoSteps _ [] (JSVal.errObj "boom")
  · intro s hs
    simp only [demoSteps, List.mem_cons, List.not_mem_nil, or_false] at hs
    rcases hs with rfl | rfl | rfl | rfl | rfl <;> rfl
  · rfl

/-- Claim C7: a pipeline handle may be run more than once; each terminal
invocation calls the stored thunk afresh, so the event log of two
invocations is two copies of the single-run log, the results agree, and
every single-run log of a `from`-rooted chain contains the root-producer
invocation. -/
theorem terminal_reexecutes_from_root (f : Unit → CallRes) (steps : List Step) :
    runTwice (build (Root.fromR f) steps)
      = ((((build (Root.fromR f) steps).run).1) ++ (((build (Root.fromR f) steps).run).1),
         (((build (Root.fromR f) steps).run).2, ((build (Root.fromR f) steps).run).2))
    ∧ Tag.root ∈ (((build (Root.fromR f) steps).run).1) := by
  refine ⟨rfl, ?_⟩
  apply root_mem_chain
  simp [rootP, Pieper.fromFn, Pieper.run]

/-- Claim C8: when the preceding chain settles (success or failure),
`finally(fn)` invokes `fn` exactly once, after the chain's own events; a
successful `fn` leaves the settlement unchanged, and a raising `fn`
overrides it with the new error. -/
theorem finally_runs_once_and_preserves (p : Pieper) (f : UFin) (t : List Tag)
    (r : Except JSVal JSVal)
    (hp : p.run = (t, PResult.settles r)) :
    ((p.finallyFn f).run).1 = t ++ [Tag.finallyF]
    ∧ (f () = Except.ok () → ((p.finallyFn f).run).2 = PResult.settles r)
    ∧ (∀ e2, f () = Except.error e2 →
        ((p.finallyFn f).run).2 = PResult.settles (Except.error e2)) := by
  have hp' : p.thunk () = (t, PResult.settles r) := hp
  refine ⟨?_, ?_, ?_⟩
  · rcases hf : f () with u | e2 <;>
      simp [Pieper.finallyFn, Pieper.run, finallyE, hp', hf]
  · intro hf
    simp [Pieper.finallyFn, Pieper.run, finallyE, hp', hf]
  · intro e2 hf
    simp [Pieper.finallyFn, Pieper.run, finallyE, hp', hf]

/-- Claim C8 witness: `of(5).map(x => x + 1).finally(() => {}).run()`
resolves to `6`. -/
theorem finally_witness :
    ((((Pieper.of (Except.ok (JSVal.num 5))).map addOneU).finallyFn
        (fun _ => Except.ok ())).run).2
      = PResult.settles (Except.ok (JSVal.num 6)) :=
  (finally_runs_once_and_preserves
      ((Pieper.of (Except.ok (JSVal.num 5))).map addOneU)
      (fun _ => Except.ok ()) [Tag.mapF] (Except.ok (JSVal.num 6)) rfl).2.1 rfl

/-- Claim C9: on success paths `p.map(f).map(g)` and the single
`p.map(x => g(f(x)))` (sequencing `f`'s settled result into `g`) produce
the same final settlement, namely `g`'s outcome on `f`'s value. -/
theorem map_composition (p : Pieper) (f g : UFun) (v w : JSVal)
    (hp : (p.run).2 = PResult.settles (Except.ok v))
    (hf : f v = Except.ok w) :
    (((p.map f).map g).run).2 = PResult.settles (g w)
    ∧ ((p.map (fun x => Except.bind (f x) g)).run).2 = PResult.settles (g w) := by
  rcases ht : p.thunk () with ⟨t, r⟩
  have hr : r = PResult.settles (Except.ok v) := by
    have h2 : (p.thunk ()).2 = PResult.settles (Except.ok v) := hp
    rw [ht] at h2
    exact h2
  subst hr
  constructor
  · simp [Pieper.map, Pieper.run, thenE, call, hf, ht]
  · simp [Pieper.map, Pieper.run, thenE, call, hf, Except.bind, ht]

/-- Claim C9 witness: composing two increments of `3` both ways yields
`5`. -/
theorem map_composition_witness :
    ((((Pieper.of (Except.ok (JSVal.num 3))).map addOneU).map addOneU).run).2
      = PResult.settles (Except.ok (JSVal.num 5))
    ∧ (((Pieper.of (Except.ok (JSVal.num 3))).map
        (fun x => Except.bind (addOneU x) addOneU)).run).2
      = PResult.settles (Except.ok (JSVal.num 5)) :=
  map_composition (Pieper.of (Except.ok (JSVal.num 3))) addOneU addOneU
    (JSVal.num 3) (JSVal.num 4) rfl rfl

/-- Claim C10: `if(condition, thenFn)` is exactly
`ifElse(condition, thenFn, (value) => value)`: the two pipelines are
definitionally the same object, so every property of `ifElse` carries over
to `if`. -/
theorem ifThen_is_ifElse_identity (p : Pieper) (c : UPred) (tf : UFun) :
    p.ifThen c tf = p.ifElse c tf (fun v => Except.ok v) :=
  rfl
